import Mathlib

/-!
Verification of the educational-blackjack engine: a shallow embedding of the
card/rank model (`src/game/card.py`), the hand logic (`src/game/hand.py`),
the Hi-Lo card counter (`src/counting/counter.py`), the strategy calculator
(`src/strategy/calculator.py`) and the settlement step of the orchestrator
(`src/game/game.py`), with theorems checking the specification's claims.

Python floats are modelled by exact rationals (`ℚ`); Python ints by `ℤ`/`ℕ`
as appropriate (fields that can go negative in Python, such as the counter's
per-rank counts after over-observation, use `ℤ`).
-/

namespace Blackjack

/-- The 13 card ranks (`Rank` enum in `card.py`). Suits only affect display,
never any value computed here, so cards are modelled by their rank. -/
inductive Rank where
  | ace | two | three | four | five | six | seven | eight | nine
  | ten | jack | queen | king
deriving DecidableEq, Repr, Fintype, Inhabited

open Rank

/-- `Rank.card_value` from `card.py`: Ace is 11, face cards are 10. -/
def cardValue : Rank → ℕ
  | ace => 11
  | two => 2
  | three => 3
  | four => 4
  | five => 5
  | six => 6
  | seven => 7
  | eight => 8
  | nine => 9
  | ten => 10
  | jack => 10
  | queen => 10
  | king => 10

/-- `Rank.count_value` from `card.py`: Hi-Lo deltas (+1 for 2–6, 0 for 7–9,
−1 for 10/J/Q/K/A). -/
def countValue : Rank → ℤ
  | ace => -1
  | two => 1
  | three => 1
  | four => 1
  | five => 1
  | six => 1
  | seven => 0
  | eight => 0
  | nine => 0
  | ten => -1
  | jack => -1
  | queen => -1
  | king => -1

/-- `Card.get_soft_value` from `card.py`: Ace counts as 1, otherwise the
card value. -/
def softValue (r : Rank) : ℕ :=
  if r = ace then 1 else cardValue r

/-- `Hand._get_soft_total` from `hand.py`: the sum of soft values (every
Ace as 1). A hand is modelled as its list of card ranks. -/
def handSoftTotal (cards : List Rank) : ℕ :=
  (cards.map softValue).sum

/-- The Ace-promotion loop inside `Hand.total`: for each Ace, add 10 if the
running total stays ≤ 21, stopping at the first failure (`break`). -/
def promoteAces : ℕ → ℕ → ℕ
  | t, 0 => t
  | t, a + 1 => if t + 10 ≤ 21 then promoteAces (t + 10) a else t

/-- `Hand.has_ace` from `hand.py`. -/
def hasAce (cards : List Rank) : Bool :=
  cards.any (fun r => r = ace)

/-- `Hand.total` from `hand.py`: sum soft values, then promote as many Aces
from 1 to 11 as fit under 21. -/
def handTotal (cards : List Rank) : ℕ :=
  promoteAces (handSoftTotal cards) (cards.count ace)

/-- `Hand.is_soft` from `hand.py`: has an Ace, total ≤ 21, and the fully
reduced soft total plus 10 is still ≤ 21. -/
def isSoft (cards : List Rank) : Bool :=
  if hasAce cards = false then false
  else decide (handTotal cards ≤ 21) && decide (handSoftTotal cards + 10 ≤ 21)

/-- `Hand.is_bust` from `hand.py`. -/
def isBust (cards : List Rank) : Bool :=
  decide (21 < handTotal cards)

/-- `Hand.is_blackjack` from `hand.py`: exactly two cards, total 21, has an
Ace. -/
def isBlackjack (cards : List Rank) : Bool :=
  if cards.length ≠ 2 then false
  else decide (handTotal cards = 21) && hasAce cards

/-- C4: the hand [Ace, Ace, 9] has total 21 and `is_soft` is `True`:
the source's check uses the fully reduced soft total 1+1+9 = 11, and
11 + 10 = 21 ≤ 21. -/
theorem hand_ace_ace_nine_total_and_soft :
    handTotal [ace, ace, nine] = 21 ∧ isSoft [ace, ace, nine] = true := by
  decide

/-! ## The card counter (`src/counting/counter.py`) -/

/-- The state of `CardCounter`. Per-rank counts are `ℤ` because Python's
`defaultdict(int)` admits negative values after spurious decrements. -/
structure CardCounter where
  runningCount : ℤ
  trueCount : ℚ
  cardCounts : Rank → ℤ
  totalCardsSeen : ℕ
  initialDeckSize : ℕ

/-- `CardCounter._get_decks_remaining`: 0 when the initial size is 0, else
(initial − seen) / 52 (computed over the rationals, as Python floats). -/
def decksRemaining (c : CardCounter) : ℚ :=
  if c.initialDeckSize = 0 then 0
  else ((c.initialDeckSize : ℚ) - (c.totalCardsSeen : ℚ)) / 52

/-- `CardCounter.reset(deck)`: snapshot counts from the deck's card list and
zero everything else. The deck is modelled as the list of ranks of its
cards. -/
def reset (deck : List Rank) : CardCounter :=
  { runningCount := 0
    trueCount := 0
    cardCounts := fun r => (deck.count r : ℤ)
    totalCardsSeen := 0
    initialDeckSize := deck.length }

/-- `CardCounter.update_count(card)`: add the Hi-Lo delta, decrement the
card's rank count, bump cards seen, then recompute the true count with the
`decks_remaining > 0` guard (`_update_true_count`). -/
def updateCount (c : CardCounter) (card : Rank) : CardCounter :=
  let c1 : CardCounter :=
    { c with
      runningCount := c.runningCount + countValue card
      cardCounts := fun r => if r = card then c.cardCounts card - 1 else c.cardCounts r
      totalCardsSeen := c.totalCardsSeen + 1 }
  { c1 with
    trueCount :=
      if 0 < decksRemaining c1 then (c1.runningCount : ℚ) / decksRemaining c1
      else 0 }

/-- `CardCounter.get_card_count(rank)`. -/
def getCardCount (c : CardCounter) (r : Rank) : ℤ :=
  c.cardCounts r

/-- `cards_remaining` as computed inside the probability getters:
`initial_deck_size - total_cards_seen` over Python ints. -/
def cardsRemainingInt (c : CardCounter) : ℤ :=
  (c.initialDeckSize : ℤ) - (c.totalCardsSeen : ℤ)

/-- `CardCounter.get_probability(rank)`: count / cards-remaining, 0 when no
cards remain. -/
def getProbability (c : CardCounter) (r : Rank) : ℚ :=
  if cardsRemainingInt c = 0 then 0
  else (c.cardCounts r : ℚ) / (cardsRemainingInt c : ℚ)

/-- `CardCounter.get_probability_10_value()`: 10/J/Q/K combined. -/
def getProbability10Value (c : CardCounter) : ℚ :=
  let count := c.cardCounts ten + c.cardCounts jack + c.cardCounts queen + c.cardCounts king
  if cardsRemainingInt c = 0 then 0
  else (count : ℚ) / (cardsRemainingInt c : ℚ)

/-- `CardCounter.get_probability_ace()`. -/
def getProbabilityAce (c : CardCounter) : ℚ :=
  getProbability c ace

/-- `CardCounter.get_probability_low_card()`: ranks 2–6 combined. -/
def getProbabilityLowCard (c : CardCounter) : ℚ :=
  let count := c.cardCounts two + c.cardCounts three + c.cardCounts four
    + c.cardCounts five + c.cardCounts six
  if cardsRemainingInt c = 0 then 0
  else (count : ℚ) / (cardsRemainingInt c : ℚ)

/-- `CardCounter.get_probability_high_card()`: 10/J/Q/K/A combined. -/
def getProbabilityHighCard (c : CardCounter) : ℚ :=
  let count := c.cardCounts ten + c.cardCounts jack + c.cardCounts queen
    + c.cardCounts king + c.cardCounts ace
  if cardsRemainingInt c = 0 then 0
  else (count : ℚ) / (cardsRemainingInt c : ℚ)

/-- `CardCounter.get_betting_multiplier()`. -/
def getBettingMultiplier (c : CardCounter) : ℚ :=
  if c.trueCount ≤ 0 then 1
  else if c.trueCount ≤ 2 then 1 + c.trueCount * (1 / 2)
  else 2 + (c.trueCount - 2) * (1 / 4)

/-- The result record of `StrategyCalculator.get_insurance_recommendation`. -/
structure InsuranceRec where
  shouldTakeInsurance : Bool
  insuranceEV : ℚ
  basicEV : ℚ
  dealerBlackjackProbability : ℚ
  countAdvantage : Bool

/-- `StrategyCalculator.get_insurance_recommendation` from `calculator.py`:
insurance EV is `3 * ten_value_prob - 1`; recommend iff it is positive. -/
def getInsuranceRecommendation (c : CardCounter) : InsuranceRec :=
  let tenValueProb := getProbability10Value c
  let insuranceEV := 3 * tenValueProb - 1
  { shouldTakeInsurance := decide (0 < insuranceEV)
    insuranceEV := insuranceEV
    basicEV := 0
    dealerBlackjackProbability := tenValueProb
    countAdvantage := decide (0 < insuranceEV) }

/-- `_build_deck` from `deck.py`: `num_decks` × 4 suits copies of the 13
ranks (order is irrelevant to every computation modelled here). -/
def buildDeck (numDecks : ℕ) : List Rank :=
  (List.replicate (4 * numDecks)
    [ace, two, three, four, five, six, seven, eight, nine, ten, jack, queen, king]).flatten

/-- One `update_count` call moves exactly one unit from the per-rank counts
to the cards-seen tally. -/
theorem updateCount_sum_counts (c : CardCounter) (card : Rank) :
    (∑ r : Rank, (updateCount c card).cardCounts r)
        + ((updateCount c card).totalCardsSeen : ℤ)
      = (∑ r : Rank, c.cardCounts r) + (c.totalCardsSeen : ℤ) := by
  have hsum : (∑ r : Rank, (updateCount c card).cardCounts r)
      = (∑ r : Rank, c.cardCounts r) - 1 := by
    have hpt : ∀ r : Rank, (updateCount c card).cardCounts r
        = c.cardCounts r + (if r = card then (-1 : ℤ) else 0) := by
      intro r
      by_cases h : r = card <;> simp [updateCount, h, sub_eq_add_neg]
    rw [Finset.sum_congr rfl fun r _ => hpt r, Finset.sum_add_distrib,
      Finset.sum_ite_eq' (Finset.univ : Finset Rank) card fun _ => (-1 : ℤ)]
    simp [sub_eq_add_neg]
  have hseen : (updateCount c card).totalCardsSeen = c.totalCardsSeen + 1 := rfl
  rw [hsum, hseen]
  push_cast
  ring

/-- Folding `update_count` over any observation list preserves the sum of
per-rank counts plus cards seen. -/
theorem foldl_updateCount_sum (obs : List Rank) (c : CardCounter) :
    (∑ r : Rank, (obs.foldl updateCount c).cardCounts r)
        + ((obs.foldl updateCount c).totalCardsSeen : ℤ)
      = (∑ r : Rank, c.cardCounts r) + (c.totalCardsSeen : ℤ) := by
  induction obs generalizing c with
  | nil => rfl
  | cons a t ih =>
      rw [List.foldl_cons, ih (updateCount c a), updateCount_sum_counts]

/-- C6: a counter reset from a shoe with the standard N-deck composition
satisfies, after every sequence of `update_count` calls, the invariant
Σ ranks remaining + cards seen = 52 × N. -/
theorem counter_composition_invariant (N : ℕ) (deck : List Rank)
    (hdeck : ∀ r : Rank, deck.count r = 4 * N) (obs : List Rank) :
    (∑ r : Rank, (obs.foldl updateCount (reset deck)).cardCounts r)
        + ((obs.foldl updateCount (reset deck)).totalCardsSeen : ℤ)
      = 52 * (N : ℤ) := by
  rw [foldl_updateCount_sum]
  have h1 : (∑ r : Rank, (reset deck).cardCounts r) = 13 * (4 * (N : ℤ)) := by
    have hpt : ∀ r : Rank, (reset deck).cardCounts r = 4 * (N : ℤ) := by
      intro r
      simp [reset, hdeck r]
    rw [Finset.sum_congr rfl fun r _ => hpt r, Finset.sum_const, Finset.card_univ]
    have hcard : Fintype.card Rank = 13 := rfl
    rw [hcard]
    ring
  have h2 : ((reset deck).totalCardsSeen : ℤ) = 0 := rfl
  rw [h1, h2]
  ring

/-- Instance of C6: one freshly built deck, then observing an Ace and a Ten. -/
theorem counter_composition_invariant_witness :
    (∑ r : Rank, (([ace, ten] : List Rank).foldl updateCount (reset (buildDeck 1))).cardCounts r)
        + ((([ace, ten] : List Rank).foldl updateCount (reset (buildDeck 1))).totalCardsSeen : ℤ)
      = 52 * (1 : ℤ) :=
  counter_composition_invariant 1 (buildDeck 1) (by decide) [ace, ten]

/-- `update_count` always leaves a zero true count when no decks remain,
because `_update_true_count` guards the division. -/
theorem updateCount_trueCount_zero (c : CardCounter) (card : Rank)
    (h : decksRemaining (updateCount c card) ≤ 0) :
    (updateCount c card).trueCount = 0 := by
  by_cases hpos :
      0 < decksRemaining
        { c with
          runningCount := c.runningCount + countValue card
          cardCounts := fun r => if r = card then c.cardCounts card - 1 else c.cardCounts r
          totalCardsSeen := c.totalCardsSeen + 1 }
  · exact absurd (by simpa [updateCount, decksRemaining] using h) (by simpa [decksRemaining] using not_le.mpr hpos)
  · simp [updateCount, hpos]

/-- Folding `update_count` preserves the guarded-true-count property. -/
theorem foldl_trueCount_zero (obs : List Rank) : ∀ c : CardCounter,
    (decksRemaining c ≤ 0 → c.trueCount = 0) →
    decksRemaining (obs.foldl updateCount c) ≤ 0 →
    (obs.foldl updateCount c).trueCount = 0 := by
  induction obs with
  | nil => exact fun c hc h => hc h
  | cons a t ih =>
      exact fun c _ h => ih (updateCount c a) (updateCount_trueCount_zero c a) h

/-- C7: after any reset and any sequence of `update_count` calls, if
decks-remaining ≤ 0 then the stored true count is 0 (the division is
guarded, never performed with a non-positive denominator). -/
theorem true_count_zero_of_no_decks (deck : List Rank) (obs : List Rank)
    (h : decksRemaining (obs.foldl updateCount (reset deck)) ≤ 0) :
    (obs.foldl updateCount (reset deck)).trueCount = 0 :=
  foldl_trueCount_zero obs (reset deck) (fun _ => rfl) h

/-- Instance of C7: the empty shoe has decks-remaining 0 and true count 0. -/
theorem true_count_zero_of_no_decks_witness :
    decksRemaining (([] : List Rank).foldl updateCount (reset [])) ≤ 0 ∧
      (([] : List Rank).foldl updateCount (reset [])).trueCount = 0 :=
  ⟨by norm_num [decksRemaining, reset], true_count_zero_of_no_decks [] [] (by norm_num [decksRemaining, reset])⟩

/-- C8: with zero cards remaining, every probability query returns 0. -/
theorem probabilities_zero_of_empty (c : CardCounter)
    (h : cardsRemainingInt c = 0) :
    (∀ r : Rank, getProbability c r = 0) ∧
      getProbability10Value c = 0 ∧ getProbabilityAce c = 0 ∧
      getProbabilityLowCard c = 0 ∧ getProbabilityHighCard c = 0 := by
  refine ⟨fun r => ?_, ?_, ?_, ?_, ?_⟩ <;>
    simp [getProbability, getProbability10Value, getProbabilityAce,
      getProbabilityLowCard, getProbabilityHighCard, h]

/-- Instance of C8: the counter reset from an empty shoe. -/
theorem probabilities_zero_of_empty_witness :
    getProbability (reset []) ace = 0 ∧
      getProbability10Value (reset []) = 0 ∧ getProbabilityAce (reset []) = 0 ∧
      getProbabilityLowCard (reset []) = 0 ∧ getProbabilityHighCard (reset []) = 0 :=
  ⟨(probabilities_zero_of_empty (reset []) (by decide)).1 ace,
    (probabilities_zero_of_empty (reset []) (by decide)).2⟩

/-- Modelled from the spec: the betting-multiplier policy as the spec words
it — 1.0 if tc ≤ 0; `1.0 + 0.5×tc` for 0 < tc ≤ 2; `2.0 + 0.25×(tc−2)` for
tc > 2. Used only to compare against `getBettingMultiplier`. -/
def specBettingMultiplier (tc : ℚ) : ℚ :=
  if tc ≤ 0 then 1
  else if tc ≤ 2 then 1 + (1 / 2) * tc
  else 2 + (1 / 4) * (tc - 2)

/-- C9: `get_betting_multiplier` is exactly the spec's piecewise function of
the true count, and in particular takes the values 1, 2 and 2.5 at true
counts 0, 2 and 4. -/
theorem betting_multiplier_spec (c : CardCounter) :
    getBettingMultiplier c = specBettingMultiplier c.trueCount ∧
      specBettingMultiplier 0 = 1 ∧ specBettingMultiplier 2 = 2 ∧
      specBettingMultiplier 4 = 5 / 2 := by
  refine ⟨?_, by norm_num [specBettingMultiplier], by norm_num [specBettingMultiplier],
    by norm_num [specBettingMultiplier]⟩
  unfold getBettingMultiplier specBettingMultiplier
  by_cases h0 : c.trueCount ≤ 0
  · simp [h0]
  · by_cases h2 : c.trueCount ≤ 2 <;> simp [h0, h2] <;> ring

/-! ## Settlement (`BlackjackGame.determine_results` in `game.py`) -/

/-- The `GameResult` enum from `game.py`. -/
inductive GameResult where
  | playerWin | dealerWin | push | playerBlackjack | dealerBlackjack | playerSurrender
deriving DecidableEq, Repr

/-- A player hand slot as `determine_results` sees it: cards plus the
doubled / surrendered flags. -/
structure PlayerHand where
  cards : List Rank
  isDoubled : Bool
  isSurrendered : Bool

/-- The per-hand branch of `BlackjackGame.determine_results`: result and
payout for one player hand against the dealer hand, given the per-hand base
bet. The `if isDoubled then 2 else 2` factors mirror the source's
`(2.0 if hand.is_doubled else 2.0)` literally. -/
def settleHand (h : PlayerHand) (dealer : List Rank) (baseBet : ℚ)
    (blackjackPays32 : Bool) : GameResult × ℚ :=
  if h.isSurrendered then (GameResult.playerSurrender, baseBet * (1 / 2))
  else if isBust h.cards then (GameResult.dealerWin, 0)
  else if isBlackjack h.cards then
    if isBlackjack dealer then (GameResult.push, baseBet)
    else (GameResult.playerBlackjack, baseBet * (if blackjackPays32 then 5 / 2 else 2))
  else if isBlackjack dealer then (GameResult.dealerBlackjack, 0)
  else if isBust dealer then
    (GameResult.playerWin, baseBet * (if h.isDoubled then 2 else 2))
  else if handTotal dealer < handTotal h.cards then
    (GameResult.playerWin, baseBet * (if h.isDoubled then 2 else 2))
  else if handTotal h.cards < handTotal dealer then (GameResult.dealerWin, 0)
  else (GameResult.push, baseBet)

/-- C10: a winning non-blackjack hand is paid 2 × base bet whether or not it
was doubled, and flipping the doubled flag never changes `settleHand`'s
output at all. -/
theorem settle_win_pays_double_base (h : PlayerHand) (dealer : List Rank)
    (baseBet : ℚ) (bj32 : Bool)
    (hwin : (settleHand h dealer baseBet bj32).1 = GameResult.playerWin) :
    (settleHand h dealer baseBet bj32).2 = 2 * baseBet ∧
      (∀ d : Bool, settleHand { h with isDoubled := d } dealer baseBet bj32
        = settleHand h dealer baseBet bj32) := by
  constructor
  · unfold settleHand at hwin ⊢
    by_cases h1 : h.isSurrendered = true <;> simp [h1] at hwin ⊢
    by_cases h2 : isBust h.cards = true <;> simp [h2] at hwin ⊢
    by_cases h3 : isBlackjack h.cards = true <;> simp [h3] at hwin ⊢
    · by_cases h4 : isBlackjack dealer = true <;> simp [h4] at hwin
    · by_cases h4 : isBlackjack dealer = true <;> simp [h4] at hwin ⊢
      by_cases h5 : isBust dealer = true <;> simp [h5] at hwin ⊢
      · ring
      · by_cases h6 : handTotal dealer < handTotal h.cards <;> simp [h6] at hwin ⊢
        · ring
        · by_cases h7 : handTotal h.cards < handTotal dealer <;> simp [h7] at hwin
  · intro d
    simp only [settleHand, ite_self]

/-- Instance of C10: a doubled 19 beats a dealer 18 and is paid 2 × base;
clearing the doubled flag changes nothing. -/
theorem settle_win_pays_double_base_witness :
    (settleHand ⟨[ten, nine], true, false⟩ [ten, eight] 10 true).2 = 2 * 10 ∧
      settleHand ⟨[ten, nine], false, false⟩ [ten, eight] 10 true
        = settleHand ⟨[ten, nine], true, false⟩ [ten, eight] 10 true :=
  ⟨(settle_win_pays_double_base ⟨[ten, nine], true, false⟩ [ten, eight] 10 true (by decide)).1,
    (settle_win_pays_double_base ⟨[ten, nine], true, false⟩ [ten, eight] 10 true (by decide)).2 false⟩

/-- C5: the insurance recommendation's EV is exactly 3p − 1 for the
tracker's ten-value probability p, and insurance is recommended iff that EV
is positive, equivalently iff p > 1/3. -/
theorem insurance_recommendation_spec (c : CardCounter) :
    (getInsuranceRecommendation c).insuranceEV = 3 * getProbability10Value c - 1 ∧
      ((getInsuranceRecommendation c).shouldTakeInsurance = true ↔
        0 < (getInsuranceRecommendation c).insuranceEV) ∧
      ((getInsuranceRecommendation c).shouldTakeInsurance = true ↔
        1 / 3 < getProbability10Value c) := by
  refine ⟨rfl, by simp [getInsuranceRecommendation], ?_⟩
  simp only [getInsuranceRecommendation, decide_eq_true_eq]
  constructor <;> intro h <;> linarith

/-! ## Dealer final-hand distribution
(`StrategyCalculator._calculate_dealer_final_hand_probs` in `calculator.py`) -/

/-- Total cards in a composition (`sum(deck_counts.values())`). -/
def sumCounts (counts : Rank → ℕ) : ℕ :=
  ∑ r : Rank, counts r

/-- Remove one card of rank `r0` from a composition
(`new_deck_counts[rank] -= 1`; over `ℕ` this is faithful whenever the count
is positive). -/
def decRank (counts : Rank → ℕ) (r0 : Rank) : Rank → ℕ :=
  fun r => if r = r0 then counts r0 - 1 else counts r

/-- One dealer draw from the body of `recurse`: Ace counts 11 when it fits,
else 1; a non-fitting draw on a soft hand demotes an Ace (−10, hard). -/
def drawStep (total : ℕ) (soft : Bool) (r : Rank) : ℕ × Bool :=
  let s : ℕ × Bool :=
    if r = ace then
      if total + 11 ≤ 21 then (total + 11, true) else (total + 1, soft)
    else (total + cardValue r, soft)
  if 21 < s.1 ∧ s.2 = true then (s.1 - 10, false) else s

/-- The memoized `recurse(total, soft, deck_counts)` of
`_calculate_dealer_final_hand_probs`, as a distribution `ℕ → ℚ` (the dict
with default 0; the bust sentinel is outcome 22). Recursion is by fuel;
every top-level call uses fuel = total cards, which the recursion never
exhausts (each draw consumes one card, and with no cards left the loop body
contributes nothing, exactly like the source's empty loop). Memoization
does not change the value and is omitted. -/
def recurseFuel : ℕ → ℕ → Bool → (Rank → ℕ) → ℕ → ℚ
  | 0, total, _soft, _counts => fun t => if 17 ≤ total ∧ t = total then 1 else 0
  | fuel + 1, total, soft, counts => fun t =>
      if 17 ≤ total then (if t = total then 1 else 0)
      else
        ∑ r : Rank,
          if counts r = 0 then 0
          else
            let p : ℚ := (counts r : ℚ) / (sumCounts counts : ℚ)
            let s := drawStep total soft r
            if 21 < s.1 then (if t = 22 then p else 0)
            else p * recurseFuel fuel s.1 s.2 (decRank counts r) t

/-- The 13 ranks as a list (the iteration order of `for rank in Rank`). -/
def allRanks : List Rank :=
  [ace, two, three, four, five, six, seven, eight, nine, ten, jack, queen, king]

/-- Well-formedness of a recursion state, following the claim: along every
path the recursion never reaches a state with total < 17 and no cards
left. Defined with the same fuel discipline as `recurseFuel`. -/
def goodStateFuel : ℕ → ℕ → Bool → (Rank → ℕ) → Bool
  | 0, total, _soft, _counts => decide (17 ≤ total)
  | fuel + 1, total, soft, counts =>
      if 17 ≤ total then true
      else
        decide (0 < sumCounts counts) &&
          allRanks.all fun r =>
            if counts r = 0 then true
            else
              let s := drawStep total soft r
              if 21 < s.1 then true
              else goodStateFuel fuel s.1 s.2 (decRank counts r)

/-- `_calculate_dealer_final_hand_probs(dealer_up_card)`: copy the
tracker's per-rank counts, remove the up-card, and run the recursion
starting from the up-card's value (Ace up starts soft at 11). -/
def dealerFinalHandProbs (upCard : Rank) (counts : Rank → ℕ) : ℕ → ℚ :=
  let deckCounts := decRank counts upCard
  recurseFuel (sumCounts deckCounts) (cardValue upCard) (decide (upCard = ace)) deckCounts

/-- Every rank's play value is at most 21 (so the recursion's entry total
is non-bust). -/
theorem cardValue_le_21 (r : Rank) : cardValue r ≤ 21 := by
  cases r <;> decide

/-- The dealer-distribution recursion only produces non-negative masses. -/
theorem recurseFuel_nonneg (fuel : ℕ) : ∀ (total : ℕ) (soft : Bool)
    (counts : Rank → ℕ) (t : ℕ), 0 ≤ recurseFuel fuel total soft counts t := by
  induction fuel with
  | zero =>
      intro total soft counts t
      simp only [recurseFuel]
      split <;> norm_num
  | succ fuel ih =>
      intro total soft counts t
      simp only [recurseFuel]
      split
      · split <;> norm_num
      · refine Finset.sum_nonneg fun r _ => ?_
        split
        · exact le_refl 0
        · have hp : (0 : ℚ) ≤ (counts r : ℚ) / (sumCounts counts : ℚ) := by
            positivity
          split
          · split <;> simp [hp]
          · exact mul_nonneg hp (ih _ _ _ t)

/-- From a non-bust total, the recursion's support lies in outcomes 17–22. -/
theorem recurseFuel_support (fuel : ℕ) : ∀ (total : ℕ) (soft : Bool)
    (counts : Rank → ℕ) (t : ℕ), total ≤ 21 →
    recurseFuel fuel total soft counts t ≠ 0 → 17 ≤ t ∧ t ≤ 22 := by
  induction fuel with
  | zero =>
      intro total soft counts t h21 hne
      simp only [recurseFuel] at hne
      rcases em (17 ≤ total ∧ t = total) with h | h
      · exact ⟨h.2 ▸ h.1, h.2 ▸ h21.trans (by norm_num)⟩
      · simp [h] at hne
  | succ fuel ih =>
      intro total soft counts t h21 hne
      simp only [recurseFuel] at hne
      rcases em (17 ≤ total) with h17 | h17
      · rw [if_pos h17] at hne
        rcases em (t = total) with ht | ht
        · exact ⟨ht ▸ h17, ht ▸ h21.trans (by norm_num)⟩
        · simp [ht] at hne
      · rw [if_neg h17] at hne
        obtain ⟨r, _, hr⟩ := Finset.exists_ne_zero_of_sum_ne_zero hne
        rcases em (counts r = 0) with hc | hc
        · simp [hc] at hr
        · rw [if_neg hc] at hr
          rcases em (21 < (drawStep total soft r).1) with hb | hb
          · rw [if_pos hb] at hr
            rcases em (t = 22) with ht | ht
            · subst ht; exact ⟨by norm_num, le_refl 22⟩
            · simp [ht] at hr
          · rw [if_neg hb] at hr
            have hrec : recurseFuel fuel (drawStep total soft r).1
                (drawStep total soft r).2 (decRank counts r) t ≠ 0 :=
              fun h0 => hr (by rw [h0, mul_zero])
            exact ih _ _ _ t (not_lt.mp hb) hrec

/-- Every rank is in the iteration list. -/
theorem mem_allRanks (r : Rank) : r ∈ allRanks := by
  cases r <;> decide

/-- Under the well-formedness predicate, the recursion's masses over the
outcomes 17–22 sum to exactly 1. -/
theorem recurseFuel_sum_one (fuel : ℕ) : ∀ (total : ℕ) (soft : Bool)
    (counts : Rank → ℕ), goodStateFuel fuel total soft counts = true →
    total ≤ 21 →
    ∑ t in Finset.Icc 17 22, recurseFuel fuel total soft counts t = 1 := by
  induction fuel with
  | zero =>
      intro total soft counts hgood h21
      simp only [goodStateFuel, decide_eq_true_eq] at hgood
      simp only [recurseFuel, hgood, true_and]
      rw [Finset.sum_ite_eq' (Finset.Icc 17 22) total fun _ => (1 : ℚ)]
      rw [if_pos (Finset.mem_Icc.mpr ⟨hgood, h21.trans (by norm_num)⟩)]
  | succ fuel ih =>
      intro total soft counts hgood h21
      rcases em (17 ≤ total) with h17 | h17
      · simp only [recurseFuel, if_pos h17]
        rw [Finset.sum_ite_eq' (Finset.Icc 17 22) total fun _ => (1 : ℚ)]
        rw [if_pos (Finset.mem_Icc.mpr ⟨h17, h21.trans (by norm_num)⟩)]
      · simp only [goodStateFuel, if_neg h17, Bool.and_eq_true, decide_eq_true_eq,
          List.all_eq_true] at hgood
        obtain ⟨hpos, hall⟩ := hgood
        have hn : ((sumCounts counts : ℕ) : ℚ) ≠ 0 := by
          have : sumCounts counts ≠ 0 := by omega
          exact_mod_cast this
        simp only [recurseFuel, if_neg h17]
        rw [Finset.sum_comm]
        have hinner : ∀ r : Rank,
            (∑ t in Finset.Icc 17 22,
              if counts r = 0 then 0
              else
                let p : ℚ := (counts r : ℚ) / (sumCounts counts : ℚ)
                let s := drawStep total soft r
                if 21 < s.1 then (if t = 22 then p else 0)
                else p * recurseFuel fuel s.1 s.2 (decRank counts r) t)
            = (counts r : ℚ) / (sumCounts counts : ℚ) := by
          intro r
          rcases em (counts r = 0) with hc | hc
          · simp [hc]
          · simp only [if_neg hc]
            rcases em (21 < (drawStep total soft r).1) with hb | hb
            · simp only [if_pos hb]
              rw [Finset.sum_ite_eq' (Finset.Icc 17 22) 22
                fun _ => (counts r : ℚ) / (sumCounts counts : ℚ)]
              rw [if_pos (by decide : (22 : ℕ) ∈ Finset.Icc 17 22)]
            · simp only [if_neg hb]
              rw [← Finset.mul_sum]
              have hgr := hall r (mem_allRanks r)
              rw [if_neg hc, if_neg hb] at hgr
              rw [ih _ _ _ hgr (not_lt.mp hb), mul_one]
        rw [Finset.sum_congr rfl fun r _ => hinner r, ← Finset.sum_div]
        rw [show (∑ r : Rank, (counts r : ℚ)) = ((sumCounts counts : ℕ) : ℚ) by
          rw [sumCounts]; push_cast; rfl]
        exact div_self hn

/-- C1: for every dealer up-card and well-formed remaining composition
(up-card present; the recursion never reaches total < 17 with no cards
left), the returned mapping has mass only on outcomes 17–21 and the bust
sentinel 22, and the masses sum to exactly 1 over the rationals. -/
theorem dealer_final_probs_distribution (upCard : Rank) (counts : Rank → ℕ)
    (_hup : 1 ≤ counts upCard)
    (hgood : goodStateFuel (sumCounts (decRank counts upCard)) (cardValue upCard)
      (decide (upCard = ace)) (decRank counts upCard) = true) :
    (∀ t : ℕ, dealerFinalHandProbs upCard counts t ≠ 0 → 17 ≤ t ∧ t ≤ 22) ∧
      ∑ t in Finset.Icc 17 22, dealerFinalHandProbs upCard counts t = 1 := by
  constructor
  · intro t ht
    exact recurseFuel_support _ _ _ _ t (cardValue_le_21 upCard) ht
  · exact recurseFuel_sum_one _ _ _ _ hgood (cardValue_le_21 upCard)

/-- Instance of C1: up-card Ten against a composition holding two Tens; the
remaining Ten is drawn, the dealer stands on 20, total mass 1. -/
theorem dealer_final_probs_distribution_witness :
    ∑ t in Finset.Icc 17 22,
        dealerFinalHandProbs ten (fun r => if r = ten then 2 else 0) t = 1 :=
  (dealer_final_probs_distribution ten (fun r => if r = ten then 2 else 0)
    (by decide) (by decide)).2

/-- `BlackjackGame.__init__` (`game.py` line 62): the orchestrator
configures the dealer to hit soft 17. -/
def dealerHitsSoft17 : Bool := true

/-- The dealer-hit condition of `BlackjackGame.play_dealer_hand`
(`game.py` line 393): hit while total < 17, or on soft 17 when the
`dealer_hits_soft_17` rule is on. -/
def dealerShouldHit (cards : List Rank) : Bool :=
  decide (handTotal cards < 17) ||
    (dealerHitsSoft17 && isSoft cards && decide (handTotal cards = 17))

/-- C2 (refuting the claim as stated): the orchestrator sets
`dealer_hits_soft_17 = True` and its dealer loop does hit the soft 17 hand
[Ace, 6], yet the probability recursion's base case fires at total = 17
even when soft — `recurse(17, soft=True, ·)` returns the point mass
{17: 1.0} instead of continuing, for any fuel and any composition shown
here at a concrete one. The calculator never reads the flag. -/
theorem dealer_soft17_not_honored :
    dealerHitsSoft17 = true ∧
      dealerShouldHit [ace, six] = true ∧
      recurseFuel 3 17 true (fun _ => 1) 17 = 1 ∧
      recurseFuel 3 17 true (fun _ => 1) 18 = 0 := by
  refine ⟨rfl, by decide, ?_, ?_⟩ <;> simp [recurseFuel]

/-! ## Player action EVs and the optimal action
(`StrategyCalculator` in `calculator.py`) -/

/-- The payoff of standing at player total `pt` against dealer outcome `t`,
from the branch chain of `_calculate_stand_ev`: dealer bust pays +1, then
higher total wins ±1, equal pushes. -/
def standPayoff (pt t : ℕ) : ℚ :=
  if 21 < t then 1
  else if t < pt then 1
  else if pt < t then -1
  else 0

/-- `_calculate_stand_ev`: the stand EV is the dealer distribution weighted
by the stand payoff. The distribution's support lies in 17–22
(`recurseFuel_support`), so summing over `Finset.Icc 17 22` reproduces the
source's iteration over the returned mapping's entries. -/
def calculateStandEV (playerTotal : ℕ) (upCard : Rank) (counts : Rank → ℕ) : ℚ :=
  ∑ t in Finset.Icc 17 22,
    dealerFinalHandProbs upCard counts t * standPayoff playerTotal t

/-- The tracker probability of drawing a rank, `get_probability`, for a
tracker in lock-step with the composition (cards-remaining equals the
composition's total, the invariant of `counter_composition_invariant`). -/
def trackerProbability (counts : Rank → ℕ) (r : Rank) : ℚ :=
  if sumCounts counts = 0 then 0
  else (counts r : ℚ) / (sumCounts counts : ℚ)

/-- `_calculate_hit_ev`: draw one card from the tracker's distribution; a
bust contributes −1, otherwise the stand EV of the new hand (one level, as
in the source). -/
def calculateHitEV (cards : List Rank) (upCard : Rank) (counts : Rank → ℕ) : ℚ :=
  ∑ r : Rank,
    if 0 < trackerProbability counts r then
      trackerProbability counts r *
        (if isBust (cards ++ [r]) then -1
         else calculateStandEV (handTotal (cards ++ [r])) upCard counts)
    else 0

/-- `_calculate_double_ev`: one forced card; bust pays −2, otherwise twice
the stand EV of the resulting hand. -/
def calculateDoubleEV (cards : List Rank) (upCard : Rank) (counts : Rank → ℕ) : ℚ :=
  ∑ r : Rank,
    if 0 < trackerProbability counts r then
      trackerProbability counts r *
        (if isBust (cards ++ [r]) then -2
         else 2 * calculateStandEV (handTotal (cards ++ [r])) upCard counts)
    else 0

/-- `_calculate_split_ev`: EV of one split hand (first card plus one draw),
doubled — the source's documented approximation. -/
def calculateSplitEV (cards : List Rank) (upCard : Rank) (counts : Rank → ℕ) : ℚ :=
  2 * ∑ r : Rank,
    if 0 < trackerProbability counts r then
      trackerProbability counts r *
        (if isBust [cards.headI, r] then -1
         else calculateStandEV (handTotal [cards.headI, r]) upCard counts)
    else 0

/-- `Hand.can_split`: exactly two cards of equal rank. -/
def canSplit (cards : List Rank) : Bool :=
  match cards with
  | [a, b] => decide (a = b)
  | _ => false

/-- The `Action` enum from `calculator.py`, in declaration order. -/
inductive Action where
  | hit | stand | double | split | surrender
deriving DecidableEq, Repr

/-- Python's `max(keys, key=...)` over the insertion-ordered action/EV
pairs: the first entry attaining the maximal EV wins (a later entry
replaces only on strictly greater EV). -/
def argmaxFirst : List (Action × ℚ) → Action × ℚ
  | [] => (Action.stand, 0)
  | [a] => a
  | a :: b :: t =>
      let m := argmaxFirst (b :: t)
      if a.2 < m.2 then m else a

/-- `get_optimal_action(player_hand, dealer_up_card)`, returning the
(action, EV) pair (the third returned component, a display-only breakdown
mapping, is not modelled): bust and natural blackjack short-circuit;
otherwise the EVs of hit, stand, conditionally double / split / surrender
are collected in order and the first maximum is chosen. -/
def getOptimalAction (cards : List Rank) (upCard : Rank) (counts : Rank → ℕ) :
    Action × ℚ :=
  if isBust cards then (Action.stand, -1)
  else if isBlackjack cards then (Action.stand, 3 / 2)
  else
    let base := [(Action.hit, calculateHitEV cards upCard counts),
                 (Action.stand, calculateStandEV (handTotal cards) upCard counts)]
    let withDouble :=
      if cards.length = 2 then
        base ++ [(Action.double, calculateDoubleEV cards upCard counts)]
      else base
    let withSplit :=
      if canSplit cards then
        withDouble ++ [(Action.split, calculateSplitEV cards upCard counts)]
      else withDouble
    let withSurrender :=
      if cards.length = 2 then withSplit ++ [(Action.surrender, -(1 / 2))]
      else withSplit
    argmaxFirst withSurrender

/-- The stand payoff is non-decreasing in the player total. -/
theorem standPayoff_mono (t : ℕ) (pt1 pt2 : ℕ) (h : pt1 ≤ pt2) :
    standPayoff pt1 t ≤ standPayoff pt2 t := by
  unfold standPayoff
  split_ifs <;> try norm_num
  all_goals omega

/-- C3: holding the up-card and composition fixed, the stand EV is
monotonically non-decreasing in the player total over non-bust totals; and
for any bust hand `get_optimal_action` returns (Stand, −1.0). -/
theorem stand_ev_monotone_and_bust (upCard : Rank) (counts : Rank → ℕ)
    (t1 t2 : ℕ) (h12 : t1 ≤ t2) (_h21 : t2 ≤ 21) :
    calculateStandEV t1 upCard counts ≤ calculateStandEV t2 upCard counts ∧
      ∀ cards : List Rank, 21 < handTotal cards →
        getOptimalAction cards upCard counts = (Action.stand, -1) := by
  constructor
  · refine Finset.sum_le_sum fun t _ => ?_
    exact mul_le_mul_of_nonneg_left (standPayoff_mono t t1 t2 h12)
      (recurseFuel_nonneg _ _ _ _ t)
  · intro cards hbust
    have hb : isBust cards = true := by
      simp [isBust, hbust]
    simp [getOptimalAction, hb]

/-- Instance of C3: stand EV at 18 is no worse than at 19 against a Ten
up-card over a two-Ten composition, and the bust hand [10, 9, 5] yields
(Stand, −1). -/
theorem stand_ev_monotone_and_bust_witness :
    calculateStandEV 18 ten (fun r => if r = ten then 2 else 0) ≤
        calculateStandEV 19 ten (fun r => if r = ten then 2 else 0) ∧
      getOptimalAction [ten, nine, five] ten (fun r => if r = ten then 2 else 0)
        = (Action.stand, -1) :=
  ⟨(stand_ev_monotone_and_bust ten (fun r => if r = ten then 2 else 0) 18 19
      (by norm_num) (by norm_num)).1,
    (stand_ev_monotone_and_bust ten (fun r => if r = ten then 2 else 0) 18 19
      (by norm_num) (by norm_num)).2 [ten, nine, five] (by decide)⟩

end Blackjack
